import Mathlib

/-!
Shallow embedding of the core of webdav_ss for checking its specification.

Paths and object keys are embedded as `List Char` (the repository stores them
as Rust `String`s); object bodies are `List Nat` (bytes). The S3 object store
(an external collaborator, spec section 6) is a key/value map plus the
multipart-upload session protocol. Each definition mirrors one function of
the source; the file and line of the source function are given in its
doc comment.
-/

namespace WD

abbrev Str := List Char

abbrev Bytes := List Nat

/-- Slash character, the collection marker of NormalizedPath. -/
def slash : Char := '/'

/-- Check of `s.starts_with(c)` for a one-character pattern. -/
def charStarts (s : Str) (c : Char) : Bool := s.head? == some c

/-- Check of `s.ends_with(c)` for a one-character pattern. -/
def charEnds (s : Str) (c : Char) : Bool := s.getLast? == some c

/-- From src/src/backend/normalized_path.rs lines 98-108, `From<String> for
NormalizedPath`: drop a leading slash unless the whole string is "/", and an
empty string becomes the root "/". -/
def fromString (t : Str) : Str :=
  let t := if charStarts t slash && decide (1 < t.length) then t.drop 1 else t
  if t.length = 0 then [slash] else t

/-- From normalized_path.rs lines 9-17, `NormalizedPath::trim_token`: drop one
trailing slash, then one leading slash. -/
def trim_token (t : Str) : Str :=
  let t := if charEnds t slash then t.dropLast else t
  if charStarts t slash then t.drop 1 else t

/-- From normalized_path.rs lines 19-30, `NormalizedPath::join_file`. -/
def join_file (p t : Str) : Str :=
  let t := trim_token t
  if t.length = 0 then p
  else if charEnds p slash then fromString (p ++ t)
  else fromString (p ++ slash :: t)

/-- From normalized_path.rs lines 32-43, `NormalizedPath::join_dir`. -/
def join_dir (p t : Str) : Str :=
  let t := trim_token t
  if t.length = 0 then p
  else if charEnds p slash then fromString (p ++ (t ++ [slash]))
  else fromString (p ++ slash :: (t ++ [slash]))

/-- Rust `str::trim_start_matches`: remove every consecutive occurrence of
`pat` from the front (for a non-empty pattern; an empty pattern matches
nothing here, as a NormalizedPath is never empty). -/
def trimStartMatches (s pat : Str) : Str :=
  if h : pat ≠ [] ∧ pat.isPrefixOf s then trimStartMatches (s.drop pat.length) pat else s
termination_by s.length
decreasing_by
  rcases h with ⟨hne, hpref⟩
  have hlen : pat.length ≤ s.length := (List.isPrefixOf_iff_prefix.mp hpref).length_le
  have hpos : 0 < pat.length := List.length_pos.mpr hne
  simp only [List.length_drop]
  omega

/-- From normalized_path.rs lines 59-61, `NormalizedPath::strip_prefix`:
`self.0.trim_start_matches(&prefix.0).into()`. -/
def stripPrefix (p q : Str) : Str := fromString (trimStartMatches p q)

/-- From normalized_path.rs line 63, `NormalizedPath::is_collection`. -/
def is_collection (p : Str) : Bool := charEnds p slash

/-- Boolean check that a string has no two adjacent slashes. -/
def noDSb : Str → Bool
  | [] => true
  | [_] => true
  | a :: b :: rest => !(a == slash && b == slash) && noDSb (b :: rest)

/-- Statement vocabulary: the string has no two adjacent slashes, i.e. no
"//" substring (used to state claim C6). -/
def NoDS (l : Str) : Prop := noDSb l = true

instance (l : Str) : Decidable (NoDS l) :=
  inferInstanceAs (Decidable (noDSb l = true))

/-- Invariant of the stored form of a NormalizedPath: non-empty, and a leading
slash occurs only on the root "/" (`From<String>` establishes this). -/
def Normalized (p : Str) : Prop := p ≠ [] ∧ (charStarts p slash = true → p = [slash])

/-- Error taxonomy of webdav_handler::fs::FsError (the variants this core
uses; spec section 7). -/
inductive FsError where
  | notFound
  | forbidden
  | alreadyExists
  | generalFailure
  | notImplemented
deriving DecidableEq, Repr

/-- The S3 bucket contents: an association list from object key to body, the
newest binding first (the external object store of spec section 6). -/
structure Store where
  objects : List (Str × Bytes)
deriving DecidableEq, Repr

/-- `GET /bucket/key`: the body of the object at `k`, if present. -/
def lookupObj (st : Store) (k : Str) : Option Bytes :=
  (st.objects.find? (fun kv => kv.1 == k)).map (fun kv => kv.2)

/-- `PUT /bucket/key`: overwrite the object at `k` (returns 200). -/
def putObj (st : Store) (k : Str) (v : Bytes) : Store :=
  ⟨(k, v) :: st.objects.filter (fun kv => !(kv.1 == k))⟩

/-- `DELETE /bucket/key`: drop the object at `k` (returns 204). -/
def delObj (st : Store) (k : Str) : Store :=
  ⟨st.objects.filter (fun kv => !(kv.1 == k))⟩

/-- `HEAD /bucket/key` status code. -/
def headCode (st : Store) (k : Str) : Nat :=
  if (lookupObj st k).isSome then 200 else 404

/-- The token ".dir" of the collection sentinel objects. -/
def dirToken : Str := ".dir".toList

/-- Metadata record fields the claims depend on (S3MetaData of
src/src/backend/s3_backend/metadata.rs; times, etag and tags are omitted,
they never feed back into control flow of the claims below). -/
structure S3MetaData where
  path : Str
  len : Nat
  is_dir : Bool
deriving DecidableEq, Repr

/-- Default `DavMetaData::is_file` as webdav_handler defines it. -/
def S3MetaData.is_file (m : S3MetaData) : Bool := !m.is_dir

/-- From src/src/backend/s3_backend/filesystem.rs lines 125-168,
`S3Backend::metadata_info`: the root always exists; otherwise probe the
sentinel `path/.dir` first, then `path` itself; the first probe answering
200 decides, and the hit counts as a collection iff its key ends ".dir". -/
def metadata_info (st : Store) (path : Str) : Except FsError S3MetaData :=
  if charStarts path slash && charEnds path slash then
    Except.ok ⟨[], 0, true⟩
  else
    match ([join_file path dirToken, path]).find? (fun pr => headCode st pr == 200) with
    | none => Except.error FsError.notFound
    | some pr =>
        Except.ok ⟨path, ((lookupObj st pr).getD []).length, dirToken.isSuffixOf pr⟩

/-- From filesystem.rs lines 241-263, `S3Backend::remove_file_impl`:
metadata must exist; a collection is refused when `dir_check` is set;
then `DELETE path` (the store answers 204). -/
def remove_file_impl (st : Store) (path : Str) (dir_check : Bool) : Except FsError Store :=
  match metadata_info st path with
  | Except.error e => Except.error e
  | Except.ok k =>
      if k.is_dir && dir_check then Except.error FsError.forbidden
      else Except.ok (delObj st path)

/-- From filesystem.rs lines 265-283, `S3Backend::remove_dir_impl`: metadata
must exist and be a collection; then remove the sentinel `path/.dir` with
`dir_check = false`. -/
def remove_dir_impl (st : Store) (path : Str) : Except FsError Store :=
  match metadata_info st path with
  | Except.error e => Except.error e
  | Except.ok k =>
      if k.is_file then Except.error FsError.forbidden
      else remove_file_impl st (join_file path dirToken) false

/-- OpenOptions of webdav_handler::fs (section 4.3 of the spec). -/
structure OpenOptions where
  read : Bool
  write : Bool
  create : Bool
  create_new : Bool
  truncate : Bool
  append : Bool
deriving DecidableEq, Repr

/-- Answer of the store to one `upload_part` call. -/
structure UploadResult where
  code : Nat
  etag : String
deriving DecidableEq, Repr

/-- Behaviour of the store for `upload_part` calls: given the part number and
the part body, `none` is a transport error (the `Err` arm of the source),
`some r` an HTTP answer with status `r.code` and etag `r.etag`. -/
abbrev Net := Nat → Bytes → Option UploadResult

/-- A network where every part upload succeeds with etag "". -/
def netOk : Net := fun _ _ => some ⟨200, ""⟩

/-- State of src/src/backend/s3_backend/partial_open_file.rs
`PartialOpenFile` (lines 13-24) together with its multipart session on the
store side: `buffer` is the rolling cursor, `etags` the etags the client
remembered, `uploaded` the parts the store holds for this upload id
(part number, etag, body), `len` the metadata length, and `aborted` whether
`abort_multipart_upload` was issued. -/
structure PartialOpenFile where
  path : Str
  buffer : Bytes
  etags : List String
  uploaded : List (Nat × String × Bytes)
  len : Nat
  aborted : Bool
deriving DecidableEq, Repr

/-- Threshold of partial_open_file.rs line 61: `CHUNK_SIZE = 10 * 1024 * 1024`. -/
def CHUNK_SIZE : Nat := 10 * 1024 * 1024

/-- From partial_open_file.rs lines 73-120, `PartialOpenFile::upload_current`:
an empty buffer uploads nothing; otherwise upload the buffer as part number
`etags.len() + 1`; a transport error or a non-200 answer aborts the multipart
upload and fails `GeneralFailure`; success remembers the etag, adds the part
length to the metadata and clears the buffer. -/
def upload_current (net : Net) (f : PartialOpenFile) :
    PartialOpenFile × Except FsError Unit :=
  if f.buffer.length = 0 then (f, Except.ok ())
  else
    match net (f.etags.length + 1) f.buffer with
    | none => ({ f with aborted := true }, Except.error FsError.generalFailure)
    | some r =>
        if r.code ≠ 200 then
          ({ f with aborted := true }, Except.error FsError.generalFailure)
        else
          ({ f with
              buffer := [],
              etags := f.etags ++ [r.etag],
              uploaded := f.uploaded ++ [(f.etags.length + 1, r.etag, f.buffer)],
              len := f.len + f.buffer.length },
           Except.ok ())

/-- From partial_open_file.rs lines 64-71, `PartialOpenFile::write_chunk`:
append the input to the cursor; below `CHUNK_SIZE` stop, otherwise upload the
buffer as the next part. -/
def write_chunk (net : Net) (f : PartialOpenFile) (b : Bytes) :
    PartialOpenFile × Except FsError Unit :=
  let f := { f with buffer := f.buffer ++ b }
  if f.buffer.length < CHUNK_SIZE then (f, Except.ok ())
  else upload_current net f

/-- A sequence of `write_bytes` calls, stopping at the first error (the
request handler stops writing once a write fails). -/
def writeList (net : Net) : PartialOpenFile → List Bytes → PartialOpenFile × Except FsError Unit
  | f, [] => (f, Except.ok ())
  | f, b :: rest =>
      match write_chunk net f b with
      | (f', Except.ok _) => writeList net f' rest
      | (f', Except.error e) => (f', Except.error e)

/-- Store side of `complete_multipart_upload`: the call succeeds iff the
submitted (part number, etag) list is exactly the session's parts in order,
and then the object becomes the concatenation of the part bodies (spec
section 6, multipart protocol). -/
def complete_multipart (st : Store) (f : PartialOpenFile) (parts : List (Nat × String)) :
    Option Store :=
  if parts = f.uploaded.map (fun u => (u.1, u.2.1)) then
    some (putObj st f.path (f.uploaded.map (fun u => u.2.2)).flatten)
  else none

/-- From partial_open_file.rs lines 146-206, `PartialOpenFile::flush`: upload
any non-empty remainder, then complete the multipart upload with the etags
enumerated as parts 1..n; a completion failure aborts and fails
`GeneralFailure`; then the object is tagged (tagging always answers 200 here
and does not touch object bodies). -/
def flushPartial (net : Net) (st : Store) (f : PartialOpenFile) :
    PartialOpenFile × Store × Except FsError Unit :=
  match upload_current net f with
  | (f', Except.error e) => (f', st, Except.error e)
  | (f', Except.ok _) =>
      let parts := f'.etags.enum.map (fun ie => (ie.1 + 1, ie.2))
      match complete_multipart st f' parts with
      | some st' => (f', st', Except.ok ())
      | none => ({ f' with aborted := true }, st, Except.error FsError.generalFailure)

/-- State of src/server/src/backend/s3_backend/simple_open_file.rs
`S3SimpleOpenFile` (lines 12-21): the complete object bytes behind a cursor. -/
structure S3SimpleOpenFile where
  path : Str
  buffer : Bytes
  pos : Nat
deriving DecidableEq, Repr

/-- From simple_open_file.rs lines 67-75, `S3SimpleOpenFile::read_bytes`: a
buffer of `count` zero bytes is allocated and one cursor read fills its first
`min count remaining` bytes; the whole `count`-byte buffer is returned and
the cursor advances by the bytes actually read. -/
def read_bytes (f : S3SimpleOpenFile) (count : Nat) : Bytes × S3SimpleOpenFile :=
  let avail := f.buffer.drop f.pos
  let n := min count avail.length
  (avail.take n ++ List.replicate (count - n) 0, { f with pos := f.pos + n })

/-- An opened S3 file: the streaming multipart handle or the buffered simple
handle. -/
inductive OpenHandle where
  | multipart (f : PartialOpenFile)
  | simple (f : S3SimpleOpenFile)
deriving DecidableEq, Repr

/-- From filesystem.rs lines 447-517, `S3Backend::open` (body after the
precondition match): `HEAD path`, on 200 `GET path` into the buffer; with
`create` return a fresh multipart handle, otherwise a simple handle over the
buffer. -/
def s3openBody (st : Store) (path : Str) (options : OpenOptions) :
    Except FsError OpenHandle :=
  let buf := (lookupObj st path).getD []
  if options.create then
    Except.ok (OpenHandle.multipart ⟨path, [], [], [], buf.length, false⟩)
  else
    Except.ok (OpenHandle.simple ⟨path, buf, 0⟩)

/-- From filesystem.rs lines 447-467, `S3Backend::open` preconditions: a
collection is `Forbidden`; an existing resource with `create_new` is
`Exists`; an absent object without `create` is `NotFound`. -/
def s3open (st : Store) (path : Str) (options : OpenOptions) :
    Except FsError OpenHandle :=
  match metadata_info st path with
  | Except.ok k =>
      if k.is_dir then Except.error FsError.forbidden
      else if options.create_new then Except.error FsError.alreadyExists
      else s3openBody st path options
  | Except.error FsError.notFound =>
      if !options.create then Except.error FsError.notFound
      else s3openBody st path options
  | Except.error e => Except.error e

/-- Options of `open(p, {write, create, truncate})`. -/
def writeOpts : OpenOptions := ⟨false, true, true, false, true, false⟩

/-- Options of `open(p, {read})`. -/
def readOpts : OpenOptions := ⟨true, false, false, false, false, false⟩

/-- The scenario of spec section 8 invariant 1 on the S3 backend: open for
{write, create, truncate}, write the chunks `cs`, flush, reopen for {read}
and read `n` bytes. The returned value is what `read_bytes` yields. -/
def s3WriteReadCore (st : Store) (p : Str) (cs : List Bytes) (n : Nat) :
    Except FsError Bytes :=
  match s3open st p writeOpts with
  | Except.error e => Except.error e
  | Except.ok (OpenHandle.simple _) => Except.error FsError.generalFailure
  | Except.ok (OpenHandle.multipart f) =>
      match writeList netOk f cs with
      | (_, Except.error e) => Except.error e
      | (f', Except.ok _) =>
          match flushPartial netOk st f' with
          | (_, _, Except.error e) => Except.error e
          | (_, st', Except.ok _) =>
              match s3open st' p readOpts with
              | Except.error e => Except.error e
              | Except.ok (OpenHandle.multipart _) => Except.error FsError.generalFailure
              | Except.ok (OpenHandle.simple sf) => Except.ok (read_bytes sf n).1

/-- Round trip of claim C1: write the chunks, flush, read back exactly as
many bytes as were written. -/
def s3RoundTrip (st : Store) (p : Str) (cs : List Bytes) : Except FsError Bytes :=
  s3WriteReadCore st p cs cs.flatten.length

/-- Dead property of webdav_handler::fs::DavProp (`namespace` and `prefix`
are reserved words, hence the short field names). -/
structure DavProp where
  ns : Option Str
  pfx : Option Str
  name : Str
  xml : Option Bytes
deriving DecidableEq, Repr

/-- The property map of src/src/backend/prop_storages/mem.rs `Memory`: an
association list standing for the HashMap (keys are unique; the list order
stands for the map's iteration order). -/
abbrev PropMap := List (Str × DavProp)

/-- From mem.rs lines 36-39, `Memory::get_prop_string`:
`"{path}.{namespace}.{name}"` with an absent namespace printed as "". -/
def get_prop_string (path : Str) (prop : DavProp) : Str :=
  path ++ '.' :: (prop.ns.getD [] ++ '.' :: prop.name)

/-- HashMap::remove of the entry with key `k`. -/
def mapRemove (m : PropMap) (k : Str) : PropMap :=
  m.filter (fun e => !(e.1 == k))

/-- HashMap::entry(k).or_insert(v): insert only when the key is absent. -/
def mapInsertIfAbsent (m : PropMap) (k : Str) (v : DavProp) : PropMap :=
  if (m.find? (fun e => e.1 == k)).isSome then m else m ++ [(k, v)]

/-- From mem.rs lines 41-59, `Memory::add_prop` (the body of `patch_prop`):
set inserts or overwrites at the prop's key, unset removes the key; the
status is always OK. -/
def add_prop (m : PropMap) (path : Str) (set : Bool) (prop : DavProp) : PropMap :=
  let k := get_prop_string path prop
  if set then (k, prop) :: mapRemove m k
  else mapRemove m k

/-- From mem.rs lines 110-135, `Memory::get_props`: every stored property
whose key starts with `path`, stripped of its payload unless `do_content`. -/
def memGetProps (m : PropMap) (path : Str) (do_content : Bool) : List DavProp :=
  (m.filter (fun kv => path.isPrefixOf kv.1)).map
    (fun kv => if do_content then kv.2 else { kv.2 with xml := none })

/-- From mem.rs lines 137-160, `Memory::remove_file`: find the FIRST key
starting with `path`, remove that one entry; removing nothing is a success. -/
def memRemoveFile (m : PropMap) (path : Str) : PropMap :=
  match m.find? (fun kv => path.isPrefixOf kv.1) with
  | none => m
  | some kv => mapRemove m kv.1

/-- From mem.rs lines 162-185, `Memory::remove_dir`: the same body as
`remove_file` (one matching entry removed). -/
def memRemoveDir (m : PropMap) (path : Str) : PropMap :=
  match m.find? (fun kv => path.isPrefixOf kv.1) with
  | none => m
  | some kv => mapRemove m kv.1

/-- From mem.rs lines 187-214, `Memory::rename`: for every key starting with
`from`, the new key is `to ++ (key minus the front occurrence, renormalized)`;
each pair is removed and re-inserted under the new key (`or_insert`). -/
def memRename (m : PropMap) (f t : Str) : PropMap :=
  let rn := (m.filter (fun kv => f.isPrefixOf kv.1)).map
    (fun kv => (kv.1, t ++ fromString (kv.1.drop f.length)))
  rn.foldl
    (fun acc kp =>
      match acc.find? (fun e => e.1 == kp.1) with
      | none => acc
      | some e => mapInsertIfAbsent (mapRemove acc kp.1) kp.2 e.2)
    m

/-- From mem.rs lines 216-243, `Memory::copy`: as `rename` but the source
entries stay. -/
def memCopy (m : PropMap) (f t : Str) : PropMap :=
  let cp := (m.filter (fun kv => f.isPrefixOf kv.1)).map
    (fun kv => (kv.1, t ++ fromString (kv.1.drop f.length)))
  cp.foldl
    (fun acc kp =>
      match acc.find? (fun e => e.1 == kp.1) with
      | none => acc
      | some e => mapInsertIfAbsent acc kp.2 e.2)
    m

/-- Rust `Result::and`: keep the first error, otherwise the second result. -/
def rustAnd {ε α β : Type} (a : Except ε α) (b : Except ε β) : Except ε β :=
  match a with
  | Except.error e => Except.error e
  | Except.ok _ => b

/-- From src/src/aggregate.rs lines 252-264, `Aggregate::remove_file`:
`route.remove_file(path).await.and(props.remove_file(orig_path).await)` —
the property mutation is awaited unconditionally (it is the argument of
`and`), and `Memory::remove_file` always answers Ok. `backendRes` is what the
routed backend returned. -/
def aggRemoveFile (backendRes : Except FsError Unit) (m : PropMap) (p : Str) :
    Except FsError Unit × PropMap :=
  (rustAnd backendRes (Except.ok ()), memRemoveFile m p)

/-- From aggregate.rs lines 266-278, `Aggregate::remove_dir`: same shape. -/
def aggRemoveDir (backendRes : Except FsError Unit) (m : PropMap) (p : Str) :
    Except FsError Unit × PropMap :=
  (rustAnd backendRes (Except.ok ()), memRemoveDir m p)

/-- From aggregate.rs lines 280-294, `Aggregate::rename`: same shape with the
property store's rename. -/
def aggRename (backendRes : Except FsError Unit) (m : PropMap) (f t : Str) :
    Except FsError Unit × PropMap :=
  (rustAnd backendRes (Except.ok ()), memRename m f t)

/-- From aggregate.rs lines 296-310, `Aggregate::copy`: same shape with the
property store's copy. -/
def aggCopy (backendRes : Except FsError Unit) (m : PropMap) (f t : Str) :
    Except FsError Unit × PropMap :=
  (rustAnd backendRes (Except.ok ()), memCopy m f t)

/-- Keystream of a stream cipher: the byte the cipher XORs at each position
(ChaCha20 seeded from the fixed key and nonce is one such stream; its
concrete values are irrelevant to claim C8, which holds for every stream). -/
abbrev Keystream := Nat → Nat

/-- From src/src/backend/encryption.rs `cipher.apply_keystream`: XOR each
byte with the keystream at the cipher's running position. -/
def applyKeystream (ks : Keystream) : Nat → Bytes → Bytes
  | _, [] => []
  | pos, b :: rest => (b ^^^ ks pos) :: applyKeystream ks (pos + 1) rest

/-- From encryption.rs lines 119-154, the write path of
`EncryptionFileWrapper`: each chunk is XORed at the cipher's running position
before it is handed to the inner file. -/
def encChunks (ks : Keystream) : Nat → List Bytes → List Bytes
  | _, [] => []
  | pos, c :: rest => applyKeystream ks pos c :: encChunks ks (pos + c.length) rest

/-- Round trip of claim C8 over the S3 backend: the wrapper's `open` wraps
the inner handle with a fresh cipher (encryption.rs lines 44-56), writes
deliver the encrypted chunks to the inner multipart handle, and after reopen
`read_bytes` XORs the bytes the inner simple handle returned, with a fresh
cipher again at position 0 (encryption.rs lines 156-177). -/
def encRoundTrip (ks : Keystream) (st : Store) (p : Str) (cs : List Bytes) :
    Except FsError Bytes :=
  (s3WriteReadCore st p (encChunks ks 0 cs) cs.flatten.length).map
    (applyKeystream ks 0)

/-- Shorthand for writing concrete paths in statements. -/
def strOf (s : String) : Str := s.toList

/-- A network where every part upload is a transport error. -/
def netErr : Net := fun _ _ => none

/-- A 10 MiB zero chunk (reaches the upload threshold exactly). -/
def bigChunk : Bytes := List.replicate CHUNK_SIZE 0

/-- A fresh multipart handle on "big.bin". -/
def f0big : PartialOpenFile := ⟨strOf "big.bin", [], [], [], 0, false⟩

/-- A multipart handle on "big.bin" holding one small unsent byte. -/
def f1small : PartialOpenFile := ⟨strOf "big.bin", [5], [], [], 0, false⟩

/-- The empty bucket. -/
def emptyStore : Store := ⟨[]⟩

/-- Everything a multipart handle has accepted so far: the uploaded part
bodies in order followed by the still-buffered bytes. -/
def contentOf (f : PartialOpenFile) : Bytes :=
  (f.uploaded.map (fun u => u.2.2)).flatten ++ f.buffer

/-! Helper lemmas. -/

theorem noDS_iff_chain' (l : Str) :
    NoDS l ↔ List.Chain' (fun a b => ¬(a = slash ∧ b = slash)) l := by
  induction l with
  | nil => simp [NoDS, noDSb]
  | cons a t ih =>
      cases t with
      | nil => simp [NoDS, noDSb]
      | cons b r =>
          rw [NoDS, noDSb, List.chain'_cons, Bool.and_eq_true, ← NoDS, ih]
          constructor
          · rintro ⟨h1, h2⟩
            refine ⟨?_, h2⟩
            rintro ⟨ha, hb⟩
            subst ha; subst hb
            simp at h1
          · rintro ⟨h1, h2⟩
            refine ⟨?_, h2⟩
            by_cases ha : a = slash
            · by_cases hb : b = slash
              · exact absurd ⟨ha, hb⟩ h1
              · simp [hb]
            · simp [ha]

theorem noDS_of_not_mem {l : Str} (h : slash ∉ l) : NoDS l := by
  rw [noDS_iff_chain']
  induction l with
  | nil => exact List.chain'_nil
  | cons a t ih =>
      rw [List.chain'_cons']
      refine ⟨?_, ih (fun hm => h (List.mem_cons_of_mem a hm))⟩
      intro y hy hc
      exact h (hc.1 ▸ List.mem_cons_self a t)

theorem noDS_drop_one {l : Str} (h : NoDS l) : NoDS (l.drop 1) := by
  rw [noDS_iff_chain'] at h ⊢
  cases l with
  | nil => exact List.chain'_nil
  | cons a t => exact (List.chain'_cons'.mp h).2

theorem getLast?_drop_one {l : Str} (h : 2 ≤ l.length) :
    (l.drop 1).getLast? = l.getLast? := by
  cases l with
  | nil => simp at h
  | cons a t =>
      cases t with
      | nil => simp at h
      | cons b r => simp [List.getLast?_cons_cons]

theorem fromString_of_ne_nil {s : Str} (h : s ≠ []) :
    fromString s =
      if charStarts s slash && decide (1 < s.length) then s.drop 1 else s := by
  rw [fromString]
  by_cases hc : (charStarts s slash && decide (1 < s.length)) = true
  · have h2 : 1 < s.length := by
      have := hc
      simp only [Bool.and_eq_true, decide_eq_true_eq] at this
      exact this.2
    have hd : ¬ (s.drop 1).length = 0 := by
      rw [List.length_drop]; omega
    simp only [hc, if_true, if_neg hd]
  · have hlen : ¬ s.length = 0 := fun h0 => h (List.length_eq_zero.mp h0)
    simp only [Bool.not_eq_true] at hc
    simp only [hc, Bool.false_eq_true, if_false, if_neg hlen]

theorem fromString_of_normalized {p : Str} (h : Normalized p) : fromString p = p := by
  rcases h with ⟨hne, hroot⟩
  rw [fromString_of_ne_nil hne]
  by_cases hs : charStarts p slash = true
  · have : p = [slash] := hroot hs
    subst this
    simp
  · simp [hs]

theorem fromString_noDS {s : Str} (hne : s ≠ []) (h : NoDS s) : NoDS (fromString s) := by
  rw [fromString_of_ne_nil hne]
  split
  · exact noDS_drop_one h
  · exact h

theorem fromString_getLast? {s : Str} (h2 : 2 ≤ s.length) :
    (fromString s).getLast? = s.getLast? := by
  have hne : s ≠ [] := by
    intro h0; rw [h0] at h2; simp at h2
  rw [fromString_of_ne_nil hne]
  split
  · exact getLast?_drop_one h2
  · rfl

theorem noDS_append {p q : Str} (hp : NoDS p) (hq : NoDS q)
    (hb : ¬(p.getLast? = some slash ∧ q.head? = some slash)) : NoDS (p ++ q) := by
  rw [noDS_iff_chain'] at hp hq ⊢
  rw [List.chain'_append]
  refine ⟨hp, hq, ?_⟩
  intro x hx y hy hxy
  rw [Option.mem_def] at hx hy
  exact hb ⟨hxy.1 ▸ hx, hxy.2 ▸ hy⟩

theorem getLast?_ne_of_not_mem {l : Str} (hne : l ≠ []) (h : slash ∉ l) :
    l.getLast? ≠ some slash := by
  intro hl
  exact h (List.mem_of_mem_getLast? (Option.mem_def.mpr hl))

theorem head?_ne_of_not_mem {l : Str} (h : slash ∉ l) : l.head? ≠ some slash := by
  intro hl
  exact h (List.mem_of_mem_head? (Option.mem_def.mpr hl))

theorem charEnds_eq_false_iff {s : Str} :
    charEnds s slash = false ↔ s.getLast? ≠ some slash := by
  rw [charEnds]
  exact beq_eq_false_iff_ne

theorem charEnds_eq_true_iff {s : Str} :
    charEnds s slash = true ↔ s.getLast? = some slash := by
  rw [charEnds]
  exact beq_iff_eq

/-- C6, counterexample: the claim promises that for EVERY token, `join_file`
yields a path with no "//" that does not end in "/". A token whose interior
contains "//" survives `trim_token` (which strips one bracketing slash per
side only), and a token that trims to the empty string returns the path
unchanged, so joining "" onto the collection "d/" still ends in "/". -/
theorem c6_counterexample :
    ¬ NoDS (join_file (strOf "x") (strOf "a//b")) ∧
      charEnds (join_file (strOf "d/") (strOf "")) slash = true := by
  constructor
  · decide
  · decide

/-- C6 (amended): `trim_token` strips at most one bracketing slash per side;
provided the trimmed token is non-empty and contains no slash at all, and the
path itself has no "//", `join_file` yields a path with no "//" that does not
end in "/", and `join_dir` yields a path with no "//" that ends in "/". -/
theorem c6_join_no_double_slash (p t : Str) (hp : p ≠ []) (hnds : NoDS p)
    (ht : trim_token t ≠ []) (hts : slash ∉ trim_token t) :
    NoDS (join_file p t) ∧ charEnds (join_file p t) slash = false ∧
      NoDS (join_dir p t) ∧ charEnds (join_dir p t) slash = true := by
  have htlen : ¬ (trim_token t).length = 0 := fun h0 => ht (List.length_eq_zero.mp h0)
  have hplen : 1 ≤ p.length := List.length_pos.mpr hp
  have htlen1 : 1 ≤ (trim_token t).length := List.length_pos.mpr ht
  have htds : NoDS (trim_token t) := noDS_of_not_mem hts
  have hthead : (trim_token t).head? ≠ some slash := head?_ne_of_not_mem hts
  have htlast : (trim_token t).getLast? ≠ some slash := getLast?_ne_of_not_mem ht hts
  have hqds : NoDS (trim_token t ++ [slash]) := by
    refine noDS_append htds ?_ ?_
    · decide
    · intro hb; exact htlast hb.1
  have hqne : trim_token t ++ [slash] ≠ [] := by simp
  have hqhead : (trim_token t ++ [slash]).head? ≠ some slash := by
    rw [List.head?_append_of_ne_nil _ ht]
    exact hthead
  have hqlast : (trim_token t ++ [slash]).getLast? = some slash := by
    rw [List.getLast?_append_of_ne_nil _ (by simp : ([slash] : Str) ≠ [])]
    rfl
  by_cases hpe : charEnds p slash = true
  · have hpl : p.getLast? = some slash := charEnds_eq_true_iff.mp hpe
    refine ⟨?_, ?_, ?_, ?_⟩
    · rw [join_file, if_neg htlen, if_pos hpe]
      refine fromString_noDS (by simp [hp]) (noDS_append hnds htds ?_)
      intro hb; exact hthead hb.2
    · rw [join_file, if_neg htlen, if_pos hpe, charEnds_eq_false_iff,
        fromString_getLast? (by rw [List.length_append]; omega),
        List.getLast?_append_of_ne_nil _ ht]
      exact htlast
    · rw [join_dir, if_neg htlen, if_pos hpe]
      refine fromString_noDS (by simp [hp]) (noDS_append hnds hqds ?_)
      intro hb; exact hqhead hb.2
    · rw [join_dir, if_neg htlen, if_pos hpe, charEnds_eq_true_iff,
        fromString_getLast? (by rw [List.length_append, List.length_append]; omega),
        List.getLast?_append_of_ne_nil _ hqne]
      exact hqlast
  · have hpl : p.getLast? ≠ some slash := by
      rw [← charEnds_eq_false_iff]
      exact Bool.not_eq_true _ ▸ (Bool.eq_false_iff.mpr (fun h => hpe h))
    have hcons : NoDS (slash :: trim_token t) := by
      rw [noDS_iff_chain', List.chain'_cons']
      refine ⟨?_, (noDS_iff_chain' _).mp htds⟩
      intro y hy hxy
      exact hthead (Option.mem_def.mp hy ▸ congrArg some hxy.2.symm ▸ rfl)
    have hconsq : NoDS (slash :: (trim_token t ++ [slash])) := by
      rw [noDS_iff_chain', List.chain'_cons']
      refine ⟨?_, (noDS_iff_chain' _).mp hqds⟩
      intro y hy hxy
      exact hqhead (by rw [Option.mem_def.mp hy, hxy.2])
    refine ⟨?_, ?_, ?_, ?_⟩
    · rw [join_file, if_neg htlen, if_neg hpe]
      refine fromString_noDS (by simp [hp]) (noDS_append hnds hcons ?_)
      intro hb; exact hpl hb.1
    · rw [join_file, if_neg htlen, if_neg hpe, charEnds_eq_false_iff,
        fromString_getLast? (by rw [List.length_append]; simp; omega),
        List.getLast?_append_of_ne_nil _ (by simp : slash :: trim_token t ≠ [])]
      cases htt : trim_token t with
      | nil => exact absurd htt ht
      | cons a r => rw [List.getLast?_cons_cons]; rw [htt] at htlast; exact htlast
    · rw [join_dir, if_neg htlen, if_neg hpe]
      refine fromString_noDS (by simp [hp]) (noDS_append hnds hconsq ?_)
      intro hb; exact hpl hb.1
    · rw [join_dir, if_neg htlen, if_neg hpe, charEnds_eq_true_iff,
        fromString_getLast? (by rw [List.length_append]; simp; omega),
        List.getLast?_append_of_ne_nil _ (by simp : slash :: (trim_token t ++ [slash]) ≠ [])]
      cases htq : trim_token t ++ [slash] with
      | nil => exact absurd htq hqne
      | cons a r => rw [List.getLast?_cons_cons]; rw [htq] at hqlast; exact hqlast

/-- C6, witness: the amended theorem applied at `p = "x"`, `t = "/a/"`. -/
theorem c6_join_no_double_slash_witness :
    NoDS (join_file (strOf "x") (strOf "/a/")) ∧
      charEnds (join_file (strOf "x") (strOf "/a/")) slash = false ∧
      NoDS (join_dir (strOf "x") (strOf "/a/")) ∧
      charEnds (join_dir (strOf "x") (strOf "/a/")) slash = true :=
  c6_join_no_double_slash (strOf "x") (strOf "/a/") (by decide) (by decide)
    (by decide) (by decide)

theorem tsm_of_not_isPrefixOf {s pat : Str} (h : pat.isPrefixOf s = false) :
    trimStartMatches s pat = s := by
  rw [trimStartMatches]
  simp [h]

theorem tsm_step {s pat : Str} (h1 : pat ≠ []) (h2 : pat.isPrefixOf s = true) :
    trimStartMatches s pat = trimStartMatches (s.drop pat.length) pat := by
  rw [trimStartMatches]
  simp [h1, h2]

/-- C7, counterexample: the claim promises the suffix of `p` after `q`
whenever `q` is a prefix of `p`, but `trim_start_matches` removes EVERY
consecutive leading occurrence of `q`: stripping "/a/" from "/a/a/x" yields
"x", not the suffix "a/x" (stored forms "a/a/x", "a/"). -/
theorem c7_counterexample :
    (strOf "a/").isPrefixOf (strOf "a/a/x") = true ∧
      stripPrefix (strOf "a/a/x") (strOf "a/") ≠
        (strOf "a/a/x").drop (strOf "a/").length := by
  refine ⟨by decide, ?_⟩
  have d1 : (strOf "a/a/x").drop (strOf "a/").length = strOf "a/x" := by decide
  have e1 := @tsm_step (strOf "a/a/x") (strOf "a/") (by decide) (by decide)
  rw [d1] at e1
  have d2 : (strOf "a/x").drop (strOf "a/").length = strOf "x" := by decide
  have e2 := @tsm_step (strOf "a/x") (strOf "a/") (by decide) (by decide)
  rw [d2] at e2
  have e4 := tsm_of_not_isPrefixOf
    (by decide : (strOf "a/").isPrefixOf (strOf "x") = false)
  rw [stripPrefix, e1, e2, e4]
  decide

/-- C7 (amended): `strip_prefix` removes every consecutive leading occurrence
of `q` and renormalizes the remainder (a redundant leading slash is dropped
and an empty remainder becomes the root). Hence: when `q` does not match a
prefix of `p`, `p` is returned unchanged; when `q` is a prefix of `p` and the
remainder does not itself start with `q`, the result is the suffix of `p`
after `q`, renormalized. -/
theorem c7_stripPrefix (p q : Str) (hn : Normalized p) :
    (q.isPrefixOf p = false → stripPrefix p q = p) ∧
      (q ≠ [] → q.isPrefixOf p = true → q.isPrefixOf (p.drop q.length) = false →
        stripPrefix p q = fromString (p.drop q.length)) := by
  constructor
  · intro h
    rw [stripPrefix, tsm_of_not_isPrefixOf h]
    exact fromString_of_normalized hn
  · intro h1 h2 h3
    rw [stripPrefix, tsm_step h1 h2, tsm_of_not_isPrefixOf h3]

/-- C7, witness: both amended conjuncts at concrete inputs — a non-matching
prefix "zz" leaves "a/b" unchanged, and stripping the single occurrence of
"a/" from "a/b" yields the renormalized suffix. -/
theorem c7_stripPrefix_witness :
    stripPrefix (strOf "a/b") (strOf "zz") = strOf "a/b" ∧
      stripPrefix (strOf "a/b") (strOf "a/") =
        fromString ((strOf "a/b").drop (strOf "a/").length) := by
  have hn : Normalized (strOf "a/b") := by
    refine ⟨by decide, ?_⟩
    intro h
    exact absurd h (by decide)
  exact ⟨(c7_stripPrefix (strOf "a/b") (strOf "zz") hn).1 (by decide),
    (c7_stripPrefix (strOf "a/b") (strOf "a/") hn).2 (by decide) (by decide) (by decide)⟩

/-- C10: `S3SimpleOpenFile::read_bytes(count)` always returns exactly `count`
bytes — the prefix is the data remaining after the cursor, the tail is zero
padding when fewer than `count` bytes remain — and the cursor advances only
by the number of bytes actually read. -/
theorem c10_read_bytes_exact (f : S3SimpleOpenFile) (count : Nat) :
    ((read_bytes f count).1).length = count ∧
      (read_bytes f count).1 =
        (f.buffer.drop f.pos).take count ++
          List.replicate (count - min count (f.buffer.drop f.pos).length) 0 ∧
      (read_bytes f count).2.pos =
        f.pos + min count (f.buffer.drop f.pos).length := by
  have htake : (f.buffer.drop f.pos).take (min count (f.buffer.drop f.pos).length) =
      (f.buffer.drop f.pos).take count := by
    rcases Nat.le_total count (f.buffer.drop f.pos).length with h | h
    · rw [Nat.min_eq_left h]
    · rw [Nat.min_eq_right h, List.take_length, List.take_of_length_le h]
  refine ⟨?_, ?_, ?_⟩
  · simp only [read_bytes, List.length_append, List.length_take,
      List.length_replicate]
    omega
  · simp only [read_bytes, htake]
  · simp only [read_bytes]

/-- C2: the precondition ladder of `S3Backend::open`. Resolving is what
`metadata_info` answers: a collection is refused `Forbidden` (before
`create_new` is even considered), an existing resource with `create_new` is
refused `Exists`, and an unresolved path without `create` is `NotFound`. -/
theorem c2_open_preconditions (st : Store) (p : Str) (o : OpenOptions) :
    (∀ m, metadata_info st p = Except.ok m → m.is_dir = true →
        s3open st p o = Except.error FsError.forbidden) ∧
      (∀ m, metadata_info st p = Except.ok m → m.is_dir = false →
        o.create_new = true → s3open st p o = Except.error FsError.alreadyExists) ∧
      (metadata_info st p = Except.error FsError.notFound → o.create = false →
        s3open st p o = Except.error FsError.notFound) := by
  refine ⟨?_, ?_, ?_⟩
  · intro m hm hd
    rw [s3open, hm]
    simp [hd]
  · intro m hm hd hc
    rw [s3open, hm]
    simp [hd, hc]
  · intro hm hc
    rw [s3open, hm]
    simp [hc]

/-- C2, witness: over the store holding the sentinel "d/.dir" and the
resource "f.txt", opening "d" is Forbidden, opening "f.txt" with create_new
is Exists, and opening the absent "nope" for read is NotFound. -/
theorem c2_open_preconditions_witness :
    s3open (putObj (putObj ⟨[]⟩ (strOf "d/.dir") []) (strOf "f.txt") [1])
        (strOf "d") readOpts = Except.error FsError.forbidden ∧
      s3open (putObj (putObj ⟨[]⟩ (strOf "d/.dir") []) (strOf "f.txt") [1])
        (strOf "f.txt") ⟨false, true, false, true, false, false⟩ =
        Except.error FsError.alreadyExists ∧
      s3open (putObj (putObj ⟨[]⟩ (strOf "d/.dir") []) (strOf "f.txt") [1])
        (strOf "nope") readOpts = Except.error FsError.notFound := by
  refine ⟨?_, ?_, ?_⟩
  · exact (c2_open_preconditions _ (strOf "d") readOpts).1
      ⟨strOf "d", 0, true⟩ (by rfl) (by decide)
  · exact (c2_open_preconditions _ (strOf "f.txt") _).2.1
      ⟨strOf "f.txt", 1, false⟩ (by rfl) (by decide) (by decide)
  · exact (c2_open_preconditions _ (strOf "nope") readOpts).2.2
      (by rfl) (by decide)

/-! Lookup lemmas over the association-list store. -/

theorem find?_filter_self (l : List (Str × Bytes)) (k : Str) :
    (l.filter (fun kv => !(kv.1 == k))).find? (fun kv => kv.1 == k) = none := by
  induction l with
  | nil => rfl
  | cons a t ih =>
      by_cases h : a.1 = k
      · simp [List.filter_cons, h, ih]
      · simp only [List.filter_cons]
        have hb : (a.1 == k) = false := beq_eq_false_iff_ne.mpr h
        simp [hb, List.find?_cons, ih]

theorem find?_filter_other (l : List (Str × Bytes)) (k k' : Str) (h : k' ≠ k) :
    (l.filter (fun kv => !(kv.1 == k))).find? (fun kv => kv.1 == k') =
      l.find? (fun kv => kv.1 == k') := by
  induction l with
  | nil => rfl
  | cons a t ih =>
      by_cases h1 : a.1 = k
      · have hb : (a.1 == k) = true := beq_iff_eq.mpr h1
        have hb' : (a.1 == k') = false := beq_eq_false_iff_ne.mpr (h1 ▸ (Ne.symm h))
        simp [List.filter_cons, hb, hb', List.find?_cons, ih]
      · have hb : (a.1 == k) = false := beq_eq_false_iff_ne.mpr h1
        by_cases h2 : a.1 = k'
        · have hb' : (a.1 == k') = true := beq_iff_eq.mpr h2
          simp [List.filter_cons, hb, hb', List.find?_cons]
        · have hb' : (a.1 == k') = false := beq_eq_false_iff_ne.mpr h2
          simp [List.filter_cons, hb, hb', List.find?_cons, ih]

theorem lookupObj_delObj_self (st : Store) (k : Str) :
    lookupObj (delObj st k) k = none := by
  rw [lookupObj, delObj, find?_filter_self]
  rfl

theorem lookupObj_delObj_other (st : Store) (k k' : Str) (h : k' ≠ k) :
    lookupObj (delObj st k) k' = lookupObj st k' := by
  rw [lookupObj, delObj, find?_filter_other _ _ _ h, lookupObj]

theorem lookupObj_putObj_self (st : Store) (k : Str) (v : Bytes) :
    lookupObj (putObj st k v) k = some v := by
  rw [lookupObj, putObj]
  simp [List.find?_cons]

theorem lookupObj_putObj_other (st : Store) (k : Str) (v : Bytes) (k' : Str)
    (h : k' ≠ k) : lookupObj (putObj st k v) k' = lookupObj st k' := by
  rw [lookupObj, putObj]
  have hb : (k == k') = false := beq_eq_false_iff_ne.mpr (Ne.symm h)
  simp only [List.find?_cons, hb]
  rw [find?_filter_other _ _ _ h, lookupObj]

theorem ne_nil_of_charEnds {p : Str} (h : charEnds p slash = true) : p ≠ [] := by
  intro h0
  subst h0
  exact absurd h (by decide)

theorem charStarts_append {p q : Str} (hp : p ≠ []) :
    charStarts (p ++ q) slash = charStarts p slash := by
  rw [charStarts, charStarts, List.head?_append_of_ne_nil _ hp]

/-- Joining the ".dir" token onto a collection-form path appends it plainly. -/
theorem join_file_dirToken_col {p : Str} (hcol : charEnds p slash = true)
    (hnr : charStarts p slash = false) : join_file p dirToken = p ++ dirToken := by
  have hp : p ≠ [] := ne_nil_of_charEnds hcol
  have hne : p ++ dirToken ≠ [] := by simp [hp]
  rw [join_file]
  have ht : trim_token dirToken = dirToken := by decide
  simp only [ht, hcol, if_true]
  rw [if_neg (by decide : ¬ (dirToken.length = 0)), fromString_of_ne_nil hne,
    charStarts_append hp, hnr]
  simp

/-- Joining the ".dir" token onto a resource-form path inserts a slash. -/
theorem join_file_dirToken_file {p : Str} (hcol : charEnds p slash = false)
    (hp : p ≠ []) (hnr : charStarts p slash = false) :
    join_file p dirToken = p ++ slash :: dirToken := by
  have hne : p ++ slash :: dirToken ≠ [] := by simp
  rw [join_file]
  have ht : trim_token dirToken = dirToken := by decide
  simp only [ht, hcol, Bool.false_eq_true, if_false]
  rw [if_neg (by decide : ¬ (dirToken.length = 0)), fromString_of_ne_nil hne,
    charStarts_append hp, hnr]
  simp

/-- C4: over a store where the sentinel of the non-root collection `p`
exists, `remove_dir(p)` succeeds and deletes exactly the sentinel object at
key `p/.dir` — the sentinel is gone and every other key keeps its value;
and when `p` resolves to a resource, `remove_dir(p)` fails `Forbidden`. -/
theorem c4_remove_dir_frame (st : Store) (p : Str) (hcol : charEnds p slash = true)
    (hnr : charStarts p slash = false) :
    ((lookupObj st (join_file p dirToken)).isSome = true →
        remove_dir_impl st p = Except.ok (delObj st (join_file p dirToken)) ∧
        lookupObj (delObj st (join_file p dirToken)) (join_file p dirToken) = none ∧
        (∀ k, k ≠ join_file p dirToken →
          lookupObj (delObj st (join_file p dirToken)) k = lookupObj st k)) ∧
      (∀ m, metadata_info st p = Except.ok m → m.is_dir = false →
        remove_dir_impl st p = Except.error FsError.forbidden) := by
  have hp : p ≠ [] := ne_nil_of_charEnds hcol
  have hj : join_file p dirToken = p ++ dirToken := join_file_dirToken_col hcol hnr
  constructor
  · intro hsent
    have hroot : ¬ ((charStarts p slash && charEnds p slash) = true) := by
      rw [hnr]
      exact Bool.false_ne_true ∘ (Bool.false_and _ ▸ id)
    have hhead : headCode st (join_file p dirToken) = 200 := by
      rw [headCode, if_pos hsent]
    have hfind : List.find? (fun pr => headCode st pr == 200)
        [join_file p dirToken, p] = some (join_file p dirToken) := by
      simp [List.find?_cons, hhead]
    have hmeta : metadata_info st p =
        Except.ok ⟨p, ((lookupObj st (join_file p dirToken)).getD []).length,
          dirToken.isSuffixOf (join_file p dirToken)⟩ := by
      rw [metadata_info, if_neg hroot, hfind]
    have hsfx : dirToken.isSuffixOf (join_file p dirToken) = true := by
      rw [hj, List.isSuffixOf_iff_suffix]
      exact List.suffix_append p dirToken
    have hrm : remove_file_impl st (join_file p dirToken) false =
        Except.ok (delObj st (join_file p dirToken)) := by
      rw [remove_file_impl]
      have hrootJ : ¬ ((charStarts (join_file p dirToken) slash &&
          charEnds (join_file p dirToken) slash) = true) := by
        rw [hj, charStarts_append hp, hnr]
        exact Bool.false_ne_true ∘ (Bool.false_and _ ▸ id)
      by_cases hc : (headCode st (join_file (join_file p dirToken) dirToken) == 200) = true
      · have hfindJ : List.find? (fun pr => headCode st pr == 200)
            [join_file (join_file p dirToken) dirToken, join_file p dirToken] =
            some (join_file (join_file p dirToken) dirToken) := by
          simp [List.find?_cons, hc]
        rw [metadata_info, if_neg hrootJ, hfindJ]
        simp
      · have hfindJ : List.find? (fun pr => headCode st pr == 200)
            [join_file (join_file p dirToken) dirToken, join_file p dirToken] =
            some (join_file p dirToken) := by
          simp only [List.find?_cons, hc]
          simp [hhead]
        rw [metadata_info, if_neg hrootJ, hfindJ]
        simp
    refine ⟨?_, lookupObj_delObj_self st _, fun k hk => lookupObj_delObj_other st _ k hk⟩
    rw [remove_dir_impl, hmeta]
    show (if S3MetaData.is_file ⟨p, ((lookupObj st (join_file p dirToken)).getD []).length,
        dirToken.isSuffixOf (join_file p dirToken)⟩ = true then
          Except.error FsError.forbidden
        else remove_file_impl st (join_file p dirToken) false) = _
    have hff : S3MetaData.is_file ⟨p,
        ((lookupObj st (join_file p dirToken)).getD []).length,
        dirToken.isSuffixOf (join_file p dirToken)⟩ = false := by
      show (!(dirToken.isSuffixOf (join_file p dirToken))) = false
      rw [hsfx]
      rfl
    rw [hff]
    simpa using hrm
  · intro m hm hd
    rw [remove_dir_impl, hm]
    show (if m.is_file = true then Except.error FsError.forbidden
        else remove_file_impl st (join_file p dirToken) false) = _
    have hmf : m.is_file = true := by
      show (!m.is_dir) = true
      rw [hd]
      rfl
    rw [hmf]
    simp

/-- C4, witness: over the store holding exactly the sentinel "d/.dir" and an
object at the plain key "e/", removing the collection "d/" deletes the
sentinel and keeps "e/"; and "e/" (which resolves to a resource, since only
the plain key exists) is refused Forbidden. -/
theorem c4_remove_dir_frame_witness :
    (remove_dir_impl (putObj (putObj ⟨[]⟩ (strOf "d/.dir") []) (strOf "e/") [7])
        (strOf "d/") =
      Except.ok (delObj (putObj (putObj ⟨[]⟩ (strOf "d/.dir") []) (strOf "e/") [7])
        (join_file (strOf "d/") dirToken))) ∧
      (remove_dir_impl (putObj (putObj ⟨[]⟩ (strOf "d/.dir") []) (strOf "e/") [7])
        (strOf "e/") = Except.error FsError.forbidden) := by
  constructor
  · exact ((c4_remove_dir_frame _ (strOf "d/") (by decide) (by decide)).1 (by rfl)).1
  · exact (c4_remove_dir_frame _ (strOf "e/") (by decide) (by decide)).2
      ⟨strOf "e/", 1, false⟩ (by rfl) (by decide)

/-- Invariant of a live multipart session: the store-side part numbers are
exactly 1..n in order and the client's etag list mirrors the store's. -/
def sessionGood (f : PartialOpenFile) : Prop :=
  f.uploaded.map (fun u => u.1) = List.range' 1 f.uploaded.length ∧
    f.etags = f.uploaded.map (fun u => u.2.1)

theorem enumFrom_map_succ {α : Type} (n : Nat) (l : List α) :
    (List.enumFrom n l).map (fun ie => (ie.1 + 1, ie.2)) =
      (List.range' (n + 1) l.length).zip l := by
  induction l generalizing n with
  | nil => rfl
  | cons a t ih =>
      simp only [List.enumFrom, List.map_cons, List.length_cons, List.range'_succ,
        List.zip_cons_cons]
      rw [ih]

theorem map_pair_eq_zip (l : List (Nat × String × Bytes)) :
    ∀ s, l.map (fun u => u.1) = List.range' s l.length →
      l.map (fun u => (u.1, u.2.1)) = (List.range' s l.length).zip (l.map (fun u => u.2.1)) := by
  induction l with
  | nil => intro s _; rfl
  | cons u t ih =>
      intro s hs
      simp only [List.map_cons, List.length_cons, List.range'_succ] at hs ⊢
      have h1 : u.1 = s := (List.cons.injEq _ _ _ _ ▸ hs).1
      have h2 : t.map (fun u => u.1) = List.range' (s + 1) t.length :=
        (List.cons.injEq _ _ _ _ ▸ hs).2
      rw [List.zip_cons_cons, h1, ih (s + 1) h2]

/-- The parts list `flush` submits (etags enumerated from 1) equals the
session's (part number, etag) pairs whenever the session is well formed. -/
theorem flush_parts_eq {f : PartialOpenFile} (hsg : sessionGood f) :
    f.etags.enum.map (fun ie => (ie.1 + 1, ie.2)) =
      f.uploaded.map (fun u => (u.1, u.2.1)) := by
  have hlen : f.etags.length = f.uploaded.length := by
    rw [hsg.2, List.length_map]
  have h1 : f.etags.enum = List.enumFrom 0 f.etags := rfl
  rw [h1, enumFrom_map_succ, map_pair_eq_zip f.uploaded 1 hsg.1, ← hsg.2, hlen]

/-- Appending the next part preserves the session invariant. -/
theorem sessionGood_push {f : PartialOpenFile} (hsg : sessionGood f) (e : String)
    (b : Bytes) :
    (f.uploaded ++ [(f.etags.length + 1, e, b)]).map (fun u => u.1) =
        List.range' 1 (f.uploaded.length + 1) ∧
      f.etags ++ [e] = (f.uploaded ++ [(f.etags.length + 1, e, b)]).map
        (fun u => u.2.1) := by
  have hlen : f.etags.length = f.uploaded.length := by
    rw [hsg.2, List.length_map]
  constructor
  · rw [List.map_append, hsg.1, List.range'_concat, hlen, List.map_cons, List.map_nil]
    simp [Nat.add_comm]
  · rw [List.map_append, ← hsg.2, List.map_cons, List.map_nil]

/-- Flush over an empty buffer: no final part, completion succeeds with the
session's parts, the object becomes their concatenation. -/
theorem flushPartial_ok_empty (net : Net) (st : Store) (f : PartialOpenFile)
    (hsg : sessionGood f) (hb : f.buffer = []) :
    flushPartial net st f =
      (f, putObj st f.path ((f.uploaded.map (fun u => u.2.2)).flatten),
        Except.ok ()) := by
  have hup : upload_current net f = (f, Except.ok ()) := by
    rw [upload_current, if_pos (by rw [hb]; rfl)]
  have hparts := flush_parts_eq hsg
  simp only [flushPartial, hup, complete_multipart]
  rw [if_pos hparts]

/-- Flush over a non-empty buffer whose final upload succeeds: the remainder
goes up as part n+1, completion succeeds, the object becomes all parts plus
the remainder. -/
theorem flushPartial_ok_push (net : Net) (st : Store) (f : PartialOpenFile)
    (r : UploadResult) (hsg : sessionGood f) (hb : f.buffer ≠ [])
    (hnet : net (f.etags.length + 1) f.buffer = some r) (hcode : r.code = 200) :
    flushPartial net st f =
      ({ f with
          buffer := [],
          etags := f.etags ++ [r.etag],
          uploaded := f.uploaded ++ [(f.etags.length + 1, r.etag, f.buffer)],
          len := f.len + f.buffer.length },
        putObj st f.path ((f.uploaded.map (fun u => u.2.2)).flatten ++ f.buffer),
        Except.ok ()) := by
  have hlen : ¬ f.buffer.length = 0 := fun h0 => hb (List.length_eq_zero.mp h0)
  have hup : upload_current net f =
      ({ f with
          buffer := [],
          etags := f.etags ++ [r.etag],
          uploaded := f.uploaded ++ [(f.etags.length + 1, r.etag, f.buffer)],
          len := f.len + f.buffer.length }, Except.ok ()) := by
    rw [upload_current, if_neg hlen, hnet]
    simp [hcode]
  have hsg' : sessionGood { f with
      buffer := [],
      etags := f.etags ++ [r.etag],
      uploaded := f.uploaded ++ [(f.etags.length + 1, r.etag, f.buffer)],
      len := f.len + f.buffer.length } := by
    have h := sessionGood_push hsg r.etag f.buffer
    refine ⟨?_, h.2⟩
    simpa [List.length_append] using h.1
  have hparts := flush_parts_eq hsg'
  simp only [flushPartial, hup, complete_multipart]
  rw [if_pos hparts]
  simp [List.flatten_append]

/-- Flush when the final upload fails: the state is marked aborted, the store
is untouched and the call fails `GeneralFailure`. -/
theorem flushPartial_err (net : Net) (st : Store) (f : PartialOpenFile)
    (hb : f.buffer ≠ [])
    (hnet : net (f.etags.length + 1) f.buffer = none ∨
      (∃ r, net (f.etags.length + 1) f.buffer = some r ∧ r.code ≠ 200)) :
    flushPartial net st f =
      ({ f with aborted := true }, st, Except.error FsError.generalFailure) := by
  have hlen : ¬ f.buffer.length = 0 := fun h0 => hb (List.length_eq_zero.mp h0)
  have hup : upload_current net f =
      ({ f with aborted := true }, Except.error FsError.generalFailure) := by
    rw [upload_current, if_neg hlen]
    rcases hnet with h | ⟨r, hr, hc⟩
    · rw [h]
    · rw [hr]
      simp [hc]
  rw [flushPartial, hup]

/-- C3: the multipart write/flush discipline. (a) A write whose appended
buffer stays below 10 MiB only appends; (b) at or above 10 MiB the buffer is
uploaded as part number (previous parts)+1 and cleared; (c) an upload error
(transport or non-200) aborts the upload and fails GeneralFailure, the buffer
keeping its bytes; (d) flush uploads a non-empty remainder (of any size) as
the final part and, for a well-formed session, completes with the object set
to the parts in order 1..n+1; (e) an upload error during flush aborts and
fails GeneralFailure. -/
theorem c3_multipart_discipline (net : Net) (f : PartialOpenFile) (b : Bytes)
    (st : Store) :
    ((f.buffer ++ b).length < CHUNK_SIZE →
        write_chunk net f b = ({ f with buffer := f.buffer ++ b }, Except.ok ())) ∧
      (∀ r, ¬ (f.buffer ++ b).length < CHUNK_SIZE →
        net (f.etags.length + 1) (f.buffer ++ b) = some r → r.code = 200 →
        write_chunk net f b =
          ({ f with
              buffer := [],
              etags := f.etags ++ [r.etag],
              uploaded := f.uploaded ++ [(f.etags.length + 1, r.etag, f.buffer ++ b)],
              len := f.len + (f.buffer ++ b).length }, Except.ok ())) ∧
      (¬ (f.buffer ++ b).length < CHUNK_SIZE →
        (net (f.etags.length + 1) (f.buffer ++ b) = none ∨
          (∃ r, net (f.etags.length + 1) (f.buffer ++ b) = some r ∧ r.code ≠ 200)) →
        write_chunk net f b =
          ({ f with
              buffer := f.buffer ++ b,
              aborted := true },
            Except.error FsError.generalFailure)) ∧
      (∀ r, sessionGood f → f.buffer ≠ [] →
        net (f.etags.length + 1) f.buffer = some r → r.code = 200 →
        flushPartial net st f =
          ({ f with
              buffer := [],
              etags := f.etags ++ [r.etag],
              uploaded := f.uploaded ++ [(f.etags.length + 1, r.etag, f.buffer)],
              len := f.len + f.buffer.length },
            putObj st f.path ((f.uploaded.map (fun u => u.2.2)).flatten ++ f.buffer),
            Except.ok ())) ∧
      (f.buffer ≠ [] →
        (net (f.etags.length + 1) f.buffer = none ∨
          (∃ r, net (f.etags.length + 1) f.buffer = some r ∧ r.code ≠ 200)) →
        flushPartial net st f =
          ({ f with aborted := true }, st, Except.error FsError.generalFailure)) := by
  have hCH : (0 : Nat) < CHUNK_SIZE := by rw [CHUNK_SIZE]; omega
  refine ⟨?_, ?_, ?_, ?_, ?_⟩
  · intro h
    simp only [write_chunk]
    rw [if_pos (by simpa using h)]
  · intro r h hnet hcode
    simp only [write_chunk]
    rw [if_neg (by simpa using h)]
    have hlen : ¬ (f.buffer ++ b).length = 0 := by omega
    rw [upload_current]
    simp only
    rw [if_neg (by simpa using hlen)]
    simp only [hnet]
    simp [hcode]
  · intro h hnet
    simp only [write_chunk]
    rw [if_neg (by simpa using h)]
    have hlen : ¬ (f.buffer ++ b).length = 0 := by omega
    rw [upload_current]
    simp only
    rw [if_neg (by simpa using hlen)]
    rcases hnet with hn | ⟨r, hr, hc⟩
    · simp only [hn]
    · simp only [hr]
      simp [hc]
  · intro r hsg hb hnet hcode
    exact flushPartial_ok_push net st f r hsg hb hnet hcode
  · intro hb hnet
    exact flushPartial_err net st f hb hnet

/-- C3, witness: the five conjuncts of the discipline at concrete inputs — a
3-byte write below the threshold only buffers; a 10 MiB write uploads part 1
and clears the buffer; the same write against a failing network aborts; a
flush of the 1-byte remainder uploads it as part 1 and completes; a flush
against a failing network aborts. -/
theorem c3_multipart_discipline_witness :
    write_chunk netOk f0big [1, 2, 3] =
        ({ f0big with buffer := f0big.buffer ++ [1, 2, 3] }, Except.ok ()) ∧
      write_chunk netOk f0big bigChunk =
        ({ f0big with
            buffer := [],
            etags := f0big.etags ++ [""],
            uploaded := f0big.uploaded ++
              [(f0big.etags.length + 1, "", f0big.buffer ++ bigChunk)],
            len := f0big.len + (f0big.buffer ++ bigChunk).length }, Except.ok ()) ∧
      write_chunk netErr f0big bigChunk =
        ({ f0big with
            buffer := f0big.buffer ++ bigChunk,
            aborted := true }, Except.error FsError.generalFailure) ∧
      flushPartial netOk emptyStore f1small =
        ({ f1small with
            buffer := [],
            etags := f1small.etags ++ [""],
            uploaded := f1small.uploaded ++
              [(f1small.etags.length + 1, "", f1small.buffer)],
            len := f1small.len + f1small.buffer.length },
          putObj emptyStore f1small.path
            ((f1small.uploaded.map (fun u => u.2.2)).flatten ++ f1small.buffer),
          Except.ok ()) ∧
      flushPartial netErr emptyStore f1small =
        ({ f1small with aborted := true }, emptyStore,
          Except.error FsError.generalFailure) := by
  have hbig : ¬ (f0big.buffer ++ bigChunk).length < CHUNK_SIZE := by
    simp [f0big, bigChunk]
  refine ⟨?_, ?_, ?_, ?_, ?_⟩
  · exact (c3_multipart_discipline netOk f0big [1, 2, 3] emptyStore).1
      (by simp [f0big, CHUNK_SIZE])
  · exact (c3_multipart_discipline netOk f0big bigChunk emptyStore).2.1
      ⟨200, ""⟩ hbig rfl rfl
  · exact (c3_multipart_discipline netErr f0big bigChunk emptyStore).2.2.1
      hbig (Or.inl rfl)
  · exact (c3_multipart_discipline netOk f1small [] emptyStore).2.2.2.1
      ⟨200, ""⟩ ⟨rfl, rfl⟩ (by decide) rfl rfl
  · exact (c3_multipart_discipline netErr f1small [] emptyStore).2.2.2.2
      (by decide) (Or.inl rfl)

/-- One write against the all-ok network: never fails, preserves the session
invariant, extends the content by the chunk, keeps the path. -/
theorem write_chunk_netOk (f : PartialOpenFile) (b : Bytes) (hsg : sessionGood f) :
    ∃ f', write_chunk netOk f b = (f', Except.ok ()) ∧ sessionGood f' ∧
      contentOf f' = contentOf f ++ b ∧ f'.path = f.path := by
  by_cases h : (f.buffer ++ b).length < CHUNK_SIZE
  · refine ⟨{ f with buffer := f.buffer ++ b }, ?_, hsg, ?_, rfl⟩
    · simp only [write_chunk]
      rw [if_pos (by simpa using h)]
    · simp [contentOf, List.append_assoc]
  · have hlen : ¬ (f.buffer ++ b).length = 0 := by
      have : (0 : Nat) < CHUNK_SIZE := by rw [CHUNK_SIZE]; omega
      omega
    refine ⟨{ f with
        buffer := [],
        etags := f.etags ++ [""],
        uploaded := f.uploaded ++ [(f.etags.length + 1, "", f.buffer ++ b)],
        len := f.len + (f.buffer ++ b).length }, ?_, ?_, ?_, rfl⟩
    · simp only [write_chunk]
      rw [if_neg (by simpa using h)]
      rw [upload_current]
      simp only
      rw [if_neg (by simpa using hlen)]
      rfl
    · have hpush := sessionGood_push hsg "" (f.buffer ++ b)
      refine ⟨?_, hpush.2⟩
      simpa [List.length_append] using hpush.1
    · simp [contentOf, List.flatten_append, List.append_assoc]
  -- both branches keep the path

/-- A chunk sequence against the all-ok network: the fold never fails, the
final content is the initial content followed by the concatenation. -/
theorem writeList_netOk (cs : List Bytes) :
    ∀ f : PartialOpenFile, sessionGood f →
      ∃ f', writeList netOk f cs = (f', Except.ok ()) ∧ sessionGood f' ∧
        contentOf f' = contentOf f ++ cs.flatten ∧ f'.path = f.path := by
  induction cs with
  | nil =>
      intro f hsg
      exact ⟨f, rfl, hsg, by simp, rfl⟩
  | cons b rest ih =>
      intro f hsg
      rcases write_chunk_netOk f b hsg with ⟨f1, hw, hsg1, hc1, hp1⟩
      rcases ih f1 hsg1 with ⟨f2, hwl, hsg2, hc2, hp2⟩
      refine ⟨f2, ?_, hsg2, ?_, hp2.trans hp1⟩
      · simp only [writeList, hw]
        exact hwl
      · rw [hc2, hc1, List.flatten_cons, List.append_assoc]

theorem join_file_dirToken_longer {p : Str} (hp : p ≠ []) :
    p.length < (join_file p dirToken).length := by
  have ht : trim_token dirToken = dirToken := by decide
  have hpl : 0 < p.length := List.length_pos.mpr hp
  rw [join_file]
  simp only [ht]
  rw [if_neg (by decide : ¬ (dirToken.length = 0))]
  by_cases hpe : charEnds p slash = true
  · rw [if_pos hpe, fromString_of_ne_nil (by simp [hp])]
    split
    · simp only [List.length_drop, List.length_append]
      have : dirToken.length = 4 := by decide
      omega
    · simp only [List.length_append]
      have : dirToken.length = 4 := by decide
      omega
  · rw [if_neg hpe, fromString_of_ne_nil (by simp)]
    split
    · simp only [List.length_drop, List.length_append, List.length_cons]
      have : dirToken.length = 4 := by decide
      omega
    · simp only [List.length_append, List.length_cons]
      have : dirToken.length = 4 := by decide
      omega

theorem join_file_dirToken_ne {p : Str} (hp : p ≠ []) : join_file p dirToken ≠ p := by
  intro h
  have := join_file_dirToken_longer hp
  rw [h] at this
  omega

/-- Opening a resource-form path (whose name does not end ".dir" and whose
sentinel is absent) with `{write, create, truncate}` yields a fresh multipart
handle. -/
theorem s3open_write_multipart (st : Store) (p : Str)
    (h1 : charEnds p slash = false) (h3 : dirToken.isSuffixOf p = false)
    (h4 : lookupObj st (join_file p dirToken) = none) :
    s3open st p writeOpts = Except.ok (OpenHandle.multipart
      ⟨p, [], [], [], ((lookupObj st p).getD []).length, false⟩) := by
  have hroot : ¬ ((charStarts p slash && charEnds p slash) = true) := by
    intro hr
    rw [Bool.and_eq_true, h1] at hr
    exact Bool.false_ne_true hr.2
  have hhead4 : (headCode st (join_file p dirToken) == 200) = false := by
    rw [headCode, h4]
    rfl
  cases hobj : lookupObj st p with
  | none =>
      have hfind : List.find? (fun pr => headCode st pr == 200)
          [join_file p dirToken, p] = none := by
        simp only [List.find?_cons, hhead4]
        have : (headCode st p == 200) = false := by rw [headCode, hobj]; rfl
        simp [this]
      have hmeta : metadata_info st p = Except.error FsError.notFound := by
        rw [metadata_info, if_neg hroot, hfind]
      simp only [s3open, hmeta, s3openBody, hobj, writeOpts]
      simp
  | some v =>
      have hfind : List.find? (fun pr => headCode st pr == 200)
          [join_file p dirToken, p] = some p := by
        simp only [List.find?_cons, hhead4]
        have : (headCode st p == 200) = true := by rw [headCode, hobj]; rfl
        simp [this]
      have hmeta : metadata_info st p =
          Except.ok ⟨p, ((lookupObj st p).getD []).length, dirToken.isSuffixOf p⟩ := by
        rw [metadata_info, if_neg hroot, hfind]
      simp only [s3open, hmeta, h3, s3openBody, writeOpts]
      simp [hobj]

/-- Opening a present resource-form path (name not ending ".dir", sentinel
absent) with `{read}` yields a simple handle over the object's bytes. -/
theorem s3open_read_simple (st : Store) (p : Str) (B : Bytes)
    (h1 : charEnds p slash = false) (h3 : dirToken.isSuffixOf p = false)
    (h4 : lookupObj st (join_file p dirToken) = none)
    (hobj : lookupObj st p = some B) :
    s3open st p readOpts = Except.ok (OpenHandle.simple ⟨p, B, 0⟩) := by
  have hroot : ¬ ((charStarts p slash && charEnds p slash) = true) := by
    intro hr
    rw [Bool.and_eq_true, h1] at hr
    exact Bool.false_ne_true hr.2
  have hhead4 : (headCode st (join_file p dirToken) == 200) = false := by
    rw [headCode, h4]
    rfl
  have hfind : List.find? (fun pr => headCode st pr == 200)
      [join_file p dirToken, p] = some p := by
    simp only [List.find?_cons, hhead4]
    have : (headCode st p == 200) = true := by rw [headCode, hobj]; rfl
    simp [this]
  have hmeta : metadata_info st p =
      Except.ok ⟨p, ((lookupObj st p).getD []).length, dirToken.isSuffixOf p⟩ := by
    rw [metadata_info, if_neg hroot, hfind]
  simp only [s3open, hmeta, h3, s3openBody, hobj, readOpts]
  simp

/-- Core of the round trip: open for write, write the chunks, flush, reopen
for read, read back as many bytes as were written. -/
theorem s3WriteReadCore_ok (st : Store) (p : Str) (cs : List Bytes)
    (h1 : charEnds p slash = false) (hp : p ≠ [])
    (h3 : dirToken.isSuffixOf p = false)
    (h4 : lookupObj st (join_file p dirToken) = none) :
    s3WriteReadCore st p cs cs.flatten.length = Except.ok cs.flatten := by
  have hopen := s3open_write_multipart st p h1 h3 h4
  have hsg0 : sessionGood ⟨p, [], [], [], ((lookupObj st p).getD []).length, false⟩ :=
    ⟨rfl, rfl⟩
  rcases writeList_netOk cs _ hsg0 with ⟨f', hwl, hsg', hcont, hpath⟩
  have hcont' : contentOf f' = cs.flatten := by
    rw [hcont]
    simp [contentOf]
  have hpath' : f'.path = p := hpath
  have hfl : ∃ f2, flushPartial netOk st f' = (f2, putObj st p cs.flatten, Except.ok ()) := by
    by_cases hb : f'.buffer = []
    · refine ⟨f', ?_⟩
      have := flushPartial_ok_empty netOk st f' hsg' hb
      rw [this, hpath']
      have : (f'.uploaded.map (fun u => u.2.2)).flatten = cs.flatten := by
        have h0 := hcont'
        rw [contentOf, hb, List.append_nil] at h0
        exact h0
      rw [this]
    · refine ⟨{ f' with
          buffer := [],
          etags := f'.etags ++ [""],
          uploaded := f'.uploaded ++ [(f'.etags.length + 1, "", f'.buffer)],
          len := f'.len + f'.buffer.length }, ?_⟩
      have hpush := flushPartial_ok_push netOk st f' ⟨200, ""⟩ hsg' hb rfl rfl
      rw [hpush, hpath']
      have hcc : (f'.uploaded.map (fun u => u.2.2)).flatten ++ f'.buffer = cs.flatten :=
        hcont'
      rw [hcc]
  rcases hfl with ⟨f2, hfl⟩
  have hsent' : lookupObj (putObj st p cs.flatten) (join_file p dirToken) = none := by
    rw [lookupObj_putObj_other st p cs.flatten _ (join_file_dirToken_ne hp)]
    exact h4
  have hobj' : lookupObj (putObj st p cs.flatten) p = some cs.flatten :=
    lookupObj_putObj_self st p cs.flatten
  have hread := s3open_read_simple (putObj st p cs.flatten) p cs.flatten h1 h3 hsent' hobj'
  simp only [s3WriteReadCore, hopen, hwl, hfl, hread, read_bytes]
  simp [List.take_length]

/-- C1: on the S3 backend, opening `p` with `{write, create, truncate}`,
writing the chunks `cs` (through the multipart path the backend returns for
`create`), flushing, reopening with `{read}` and reading back exactly
`|flatten cs|` bytes yields exactly the written bytes. `p` is any
resource-form path whose name does not end in ".dir" and whose sentinel
object is absent (otherwise the open itself is refused, claim C2). -/
theorem c1_s3_round_trip (st : Store) (p : Str) (cs : List Bytes)
    (h1 : charEnds p slash = false) (hp : p ≠ [])
    (h3 : dirToken.isSuffixOf p = false)
    (h4 : lookupObj st (join_file p dirToken) = none) :
    s3RoundTrip st p cs = Except.ok cs.flatten := by
  rw [s3RoundTrip]
  exact s3WriteReadCore_ok st p cs h1 hp h3 h4

/-- C1, witness: the empty bucket, path "hello.txt", chunks
[[72, 105], [33]]: the round trip returns [72, 105, 33]. -/
theorem c1_s3_round_trip_witness :
    s3RoundTrip emptyStore (strOf "hello.txt") [[72, 105], [33]] =
      Except.ok [72, 105, 33] :=
  c1_s3_round_trip emptyStore (strOf "hello.txt") [[72, 105], [33]]
    (by decide) (by decide) (by decide) rfl

theorem applyKeystream_length (ks : Keystream) (pos : Nat) (v : Bytes) :
    (applyKeystream ks pos v).length = v.length := by
  induction v generalizing pos with
  | nil => rfl
  | cons b rest ih =>
      rw [applyKeystream, List.length_cons, List.length_cons, ih]

theorem applyKeystream_append (ks : Keystream) (pos : Nat) (a b : Bytes) :
    applyKeystream ks pos (a ++ b) =
      applyKeystream ks pos a ++ applyKeystream ks (pos + a.length) b := by
  induction a generalizing pos with
  | nil => simp [applyKeystream]
  | cons x rest ih =>
      rw [List.cons_append, applyKeystream, applyKeystream, List.cons_append, ih]
      have harith : pos + 1 + rest.length = pos + (x :: rest).length := by
        rw [List.length_cons]
        omega
      rw [harith]

theorem applyKeystream_involutive (ks : Keystream) (pos : Nat) (v : Bytes) :
    applyKeystream ks pos (applyKeystream ks pos v) = v := by
  induction v generalizing pos with
  | nil => rfl
  | cons b rest ih =>
      rw [applyKeystream, applyKeystream, ih]
      congr 1
      exact Nat.xor_cancel_right _ _

theorem encChunks_flatten (ks : Keystream) (pos : Nat) (cs : List Bytes) :
    (encChunks ks pos cs).flatten = applyKeystream ks pos cs.flatten := by
  induction cs generalizing pos with
  | nil => rfl
  | cons c rest ih =>
      rw [encChunks, List.flatten_cons, List.flatten_cons, ih,
        applyKeystream_append]

/-- C8: the encryption wrapper round-trips every byte sequence over the S3
backend: each opened file gets a fresh cipher at position 0 seeded from the
same key and nonce, writes XOR the chunks at the running position before the
inner multipart handle stores them, the reopened read XORs the stored bytes
again from position 0, and the keystream application is its own inverse.
The theorem holds for EVERY keystream, in particular ChaCha20's. -/
theorem c8_encryption_round_trip (ks : Keystream) (st : Store) (p : Str)
    (cs : List Bytes) (h1 : charEnds p slash = false) (hp : p ≠ [])
    (h3 : dirToken.isSuffixOf p = false)
    (h4 : lookupObj st (join_file p dirToken) = none) :
    encRoundTrip ks st p cs = Except.ok cs.flatten := by
  have hlen : (encChunks ks 0 cs).flatten.length = cs.flatten.length := by
    rw [encChunks_flatten, applyKeystream_length]
  have hcore := s3WriteReadCore_ok st p (encChunks ks 0 cs) h1 hp h3 h4
  rw [encRoundTrip, ← hlen, hcore]
  rw [Except.map, encChunks_flatten, applyKeystream_involutive]

/-- C8, witness: the identity-position keystream over the empty bucket, path
"hello.txt", chunks [[1, 2], [3]]: the decrypted read returns [1, 2, 3]. -/
theorem c8_encryption_round_trip_witness :
    encRoundTrip (fun i => i) emptyStore (strOf "hello.txt") [[1, 2], [3]] =
      Except.ok [1, 2, 3] :=
  c8_encryption_round_trip (fun i => i) emptyStore (strOf "hello.txt")
    [[1, 2], [3]] (by decide) (by decide) (by decide) rfl

/-- When at most one stored property key has `path` as a prefix,
`Memory::remove_file` leaves no matching key behind. -/
theorem memRemoveFile_prefix_filter (m : PropMap) (p : Str)
    (h : (m.filter (fun kv => p.isPrefixOf kv.1)).length ≤ 1) :
    (memRemoveFile m p).filter (fun kv => p.isPrefixOf kv.1) = [] := by
  induction m with
  | nil => rfl
  | cons a t ih =>
      by_cases hpa : p.isPrefixOf a.1 = true
      · have hfind : List.find? (fun kv => p.isPrefixOf kv.1) (a :: t) = some a := by
          simp [List.find?_cons, hpa]
        have hft : t.filter (fun kv => p.isPrefixOf kv.1) = [] := by
          have hstep : (List.filter (fun kv => p.isPrefixOf kv.1) (a :: t)).length =
              (t.filter (fun kv => p.isPrefixOf kv.1)).length + 1 := by
            rw [List.filter_cons, if_pos hpa, List.length_cons]
          have hlen : (t.filter (fun kv => p.isPrefixOf kv.1)).length = 0 := by omega
          exact List.length_eq_zero.mp hlen
        simp only [memRemoveFile, hfind, mapRemove, List.filter_filter]
        rw [List.filter_cons]
        have hself : (p.isPrefixOf a.1 && !(a.1 == a.1)) = false := by
          simp
        rw [if_neg (by rw [hself]; exact Bool.false_ne_true)]
        rw [List.filter_eq_nil_iff]
        intro x hx hcond
        rw [Bool.and_eq_true] at hcond
        have : x ∈ t.filter (fun kv => p.isPrefixOf kv.1) :=
          List.mem_filter.mpr ⟨hx, hcond.1⟩
        rw [hft] at this
        exact absurd this (List.not_mem_nil x)
      · have hpaf : p.isPrefixOf a.1 = false := Bool.not_eq_true _ ▸ (Bool.eq_false_iff.mpr hpa)
        have hlen : (List.filter (fun kv => p.isPrefixOf kv.1) (a :: t)) =
            t.filter (fun kv => p.isPrefixOf kv.1) := by
          rw [List.filter_cons, if_neg (by rw [hpaf]; exact Bool.false_ne_true)]
        cases hfind : List.find? (fun kv => p.isPrefixOf kv.1) t with
        | none =>
            have hall := List.find?_eq_none.mp hfind
            rw [memRemoveFile]
            have : List.find? (fun kv => p.isPrefixOf kv.1) (a :: t) = none := by
              rw [List.find?_eq_none]
              intro x hx
              rcases List.mem_cons.mp hx with h1 | h1
              · subst h1; rw [hpaf]; exact Bool.false_ne_true
              · exact hall x h1
            simp only [memRemoveFile] at *
            rw [this, hlen, List.filter_eq_nil_iff]
            intro x hx
            exact hall x hx
        | some kv =>
            have hfind2 : List.find? (fun kv => p.isPrefixOf kv.1) (a :: t) = some kv := by
              simp [List.find?_cons, hpaf, hfind]
            simp only [memRemoveFile, hfind2, mapRemove, List.filter_filter]
            have hihr : (memRemoveFile t p).filter (fun kv => p.isPrefixOf kv.1) = [] := by
              apply ih
              rw [← hlen]
              exact h
            simp only [memRemoveFile, hfind, mapRemove, List.filter_filter] at hihr
            rw [List.filter_cons]
            have hcondA : (p.isPrefixOf a.1 && !(a.1 == kv.1)) = false := by
              rw [hpaf, Bool.false_and]
            rw [if_neg (by rw [hcondA]; exact Bool.false_ne_true)]
            exact hihr

/-- C5, counterexample: the claim promises that after a successful aggregator
`remove_file(p)` every dead property at `p` is gone, however many were set.
With TWO properties stored at "s3/hello.txt" the removal succeeds but
`get_props(p, true)` still returns one property: `Memory::remove_file`
removes only the first matching key. -/
theorem c5_counterexample :
    (aggRemoveFile (Except.ok ())
        (add_prop (add_prop [] (strOf "s3/hello.txt") true
            ⟨some (strOf "DAV:"), none, strOf "author", some [1]⟩)
          (strOf "s3/hello.txt") true
          ⟨some (strOf "DAV:"), none, strOf "title", some [2]⟩)
        (strOf "s3/hello.txt")).1 = Except.ok () ∧
      memGetProps
        (aggRemoveFile (Except.ok ())
          (add_prop (add_prop [] (strOf "s3/hello.txt") true
              ⟨some (strOf "DAV:"), none, strOf "author", some [1]⟩)
            (strOf "s3/hello.txt") true
            ⟨some (strOf "DAV:"), none, strOf "title", some [2]⟩)
          (strOf "s3/hello.txt")).2
        (strOf "s3/hello.txt") true ≠ [] := by
  refine ⟨rfl, ?_⟩
  decide

/-- C5 (amended): the aggregator's `remove_file(p)` always applies the
property-store hook and succeeds when the backend does, but the hook removes
only the FIRST property whose key has `p` as a prefix; `get_props(p, true)`
is empty afterwards provided at most one property was stored under `p`. -/
theorem c5_remove_file_props (m : PropMap) (p : Str)
    (h : (m.filter (fun kv => p.isPrefixOf kv.1)).length ≤ 1) :
    (aggRemoveFile (Except.ok ()) m p).1 = Except.ok () ∧
      memGetProps (aggRemoveFile (Except.ok ()) m p).2 p true = [] := by
  refine ⟨rfl, ?_⟩
  show memGetProps (memRemoveFile m p) p true = []
  rw [memGetProps, memRemoveFile_prefix_filter m p h, List.map_nil]

/-- C5, witness: a single property under "s3/hello.txt" is fully removed. -/
theorem c5_remove_file_props_witness :
    (aggRemoveFile (Except.ok ())
        (add_prop [] (strOf "s3/hello.txt") true
          ⟨some (strOf "DAV:"), none, strOf "author", some [1]⟩)
        (strOf "s3/hello.txt")).1 = Except.ok () ∧
      memGetProps
        (aggRemoveFile (Except.ok ())
          (add_prop [] (strOf "s3/hello.txt") true
            ⟨some (strOf "DAV:"), none, strOf "author", some [1]⟩)
          (strOf "s3/hello.txt")).2
        (strOf "s3/hello.txt") true = [] :=
  c5_remove_file_props _ (strOf "s3/hello.txt") (by decide)

/-- C9: every aggregator mutation awaits the backend operation and the
property-store hook unconditionally — in this embedding of
`backend.op(path).await.and(props.op(path).await)`, the property store's new
state is the hook applied to the old state whatever the backend returned;
when the backend failed, its error is the value returned to the caller, and
when it succeeded the (always-Ok) property result is returned. -/
theorem c9_aggregate_mutations (br : Except FsError Unit) (m : PropMap)
    (p f t : Str) :
    ((aggRemoveFile br m p).2 = memRemoveFile m p ∧
        (aggRemoveDir br m p).2 = memRemoveDir m p ∧
        (aggRename br m f t).2 = memRename m f t ∧
        (aggCopy br m f t).2 = memCopy m f t) ∧
      (∀ e, br = Except.error e →
        (aggRemoveFile br m p).1 = Except.error e ∧
          (aggRemoveDir br m p).1 = Except.error e ∧
          (aggRename br m f t).1 = Except.error e ∧
          (aggCopy br m f t).1 = Except.error e) ∧
      (br = Except.ok () →
        (aggRemoveFile br m p).1 = Except.ok () ∧
          (aggRemoveDir br m p).1 = Except.ok () ∧
          (aggRename br m f t).1 = Except.ok () ∧
          (aggCopy br m f t).1 = Except.ok ()) := by
  refine ⟨⟨rfl, rfl, rfl, rfl⟩, ?_, ?_⟩
  · intro e he
    subst he
    exact ⟨rfl, rfl, rfl, rfl⟩
  · intro he
    subst he
    exact ⟨rfl, rfl, rfl, rfl⟩

/-- C9, witness: a failing backend (`NotFound`) still drives the property
hook — the single property stored under "s3/x" is removed — and `NotFound`
is what the caller gets back. -/
theorem c9_aggregate_mutations_witness :
    (aggRemoveFile (Except.error FsError.notFound)
        (add_prop [] (strOf "s3/x") true ⟨none, none, strOf "a", some [1]⟩)
        (strOf "s3/x")).2 =
      memRemoveFile
        (add_prop [] (strOf "s3/x") true ⟨none, none, strOf "a", some [1]⟩)
        (strOf "s3/x") ∧
    (aggRemoveFile (Except.error FsError.notFound)
        (add_prop [] (strOf "s3/x") true ⟨none, none, strOf "a", some [1]⟩)
        (strOf "s3/x")).1 = Except.error FsError.notFound :=
  ⟨((c9_aggregate_mutations (Except.error FsError.notFound)
      (add_prop [] (strOf "s3/x") true ⟨none, none, strOf "a", some [1]⟩)
      (strOf "s3/x") (strOf "s3/x") (strOf "s3/x")).1).1,
    (((c9_aggregate_mutations (Except.error FsError.notFound)
      (add_prop [] (strOf "s3/x") true ⟨none, none, strOf "a", some [1]⟩)
      (strOf "s3/x") (strOf "s3/x") (strOf "s3/x")).2.1) FsError.notFound rfl).1⟩

end WD
